import Mathlib

/-!
Shallow embedding of the numerical distribution engine of savvystats.js
(special functions, combinatorics, binomial/Poisson/normal distributions and
their inversion searches), together with theorems checking the specification's
claims against it.

JavaScript numbers are modelled exactly: the binomial/combinatorics code only
performs field operations and comparisons, so it is embedded over `ℚ`
(computable, decidable); the gamma/Poisson/normal code uses `Math.exp`,
`Math.log`, `Math.sqrt`, `Math.PI` and is embedded over `ℝ`.  `NaN` inputs
("non-numeric") are not representable in this embedding; every `isNaN` guard
of the source is therefore dropped, and the remaining guards are kept exactly.
A JavaScript function that can `throw` is embedded as `Except String`.
-/

namespace SavvyStats

/-- Separator used by `errors.join("; ")` in the source. -/
def errSep : String := "; "

/-! ### CombinatoricsEngine: `combinations` (src/savvystats.js:2332-2385)

The source collects precondition failures into an `errors` array but — unlike
every other public function — never executes `if (errors.length > 0) throw`;
it falls through to the computation.  The embedding therefore exposes the
collected error list separately (`combinationsErrors`) and the computation
(`combinations`) as a total function, exactly as the code behaves. -/

/-- Error message `combinations: n must be greater than or equal to k`. -/
def combinationsMsgKGtN : String := "combinations: n must be greater than or equal to k"

/-- The `errors` array collected (and then discarded) by `combinations`.
The two `isNaN` entries are unrepresentable over `ℚ` and drop out. -/
def combinationsErrors (n k : ℚ) : List String :=
  if k > n then [combinationsMsgKGtN] else []

/-- The term-by-term ratio product loop shared (textually duplicated in the
source) by `combinations` and `binomDistCalc`:
`for (numerator = n; numerator > end; numerator--) { value = numerator/denominator; acc *= value; denominator--; }`
with the iteration count precomputed. -/
def ratioLoop : ℕ → ℚ → ℚ → ℚ → ℚ
  | 0, _, _, acc => acc
  | i + 1, num, den, acc => ratioLoop i (num - 1) (den - 1) (acc * (num / den))

/-- `globalObject.combinations(n, k)` (the computation part; the collected
errors are never thrown by the source).  The loop
`for (numerator = n; numerator > numeratorProductEnd; numerator--)` decrements
by 1, so it executes `⌈n - numeratorProductEnd⌉⁺` times. -/
def combinations (n k : ℚ) : ℚ :=
  let numeratorProductEnd : ℚ := if k > n - k then k else n - k
  let denominator : ℚ := if k > n - k then n - k else k
  ratioLoop (Int.toNat ⌈n - numeratorProductEnd⌉) n denominator 1

/-! ### DiscreteDistributions: `binom.dist` (src/savvystats.js:2402-2513) -/

/-- `binom.dist` error: successes must be an integer. -/
def binomDistMsgSuccInt : String := "binom.dist: The number of successes must be an integer"

/-- `binom.dist` error: successes must be positive. -/
def binomDistMsgSuccNeg : String := "binom.dist: The number of successes must be a positive integer"

/-- `binom.dist` error: trials must be an integer. -/
def binomDistMsgTrialInt : String := "binom.dist: The number of trials must be an integer"

/-- `binom.dist` error: trials must be positive. -/
def binomDistMsgTrialNeg : String := "binom.dist: The number of trials must be a positive integer"

/-- `binom.dist` error: successes exceed trials. -/
def binomDistMsgSuccGtTrials : String := "binom.dist: It is impossible to have more successes than trials, in both life and statistics..."

/-- `binom.dist` error: probability out of range. -/
def binomDistMsgProb : String := "binom.dist: The probability of a success must be between 0 and 1"

/-- The `errors` array of `binom.dist` (`isNaN`/`undefined` checks drop;
`isInt(q)` is `q.den = 1` for a rational). -/
def binomDistErrors (successes trials probability : ℚ) : List String :=
  (if successes.den ≠ 1 then [binomDistMsgSuccInt] else []) ++
  (if successes < 0 then [binomDistMsgSuccNeg] else []) ++
  (if trials.den ≠ 1 then [binomDistMsgTrialInt] else []) ++
  (if trials < 0 then [binomDistMsgTrialNeg] else []) ++
  (if successes > trials then [binomDistMsgSuccGtTrials] else []) ++
  (if probability > 1 ∨ probability < 0 then [binomDistMsgProb] else [])

/-- The inner `binomDistCalc(successes, trials, probability)` closure
(src/savvystats.js:2437-2495), on the validated domain where both arguments
are non-negative integers.  `Math.pow(p, k)` with a natural exponent is `p ^ k`
(JavaScript gives `Math.pow(0, 0) = 1`, matching `ℚ` monoid power).  The
combination loop runs `trials - numeratorProductEnd` times. -/
def binomDistCalc (successes trials : ℕ) (probability : ℚ) : ℚ :=
  let successProbabiltyTerm : ℚ := probability ^ successes
  let mutExclProbabilityTerm : ℚ := (1 - probability) ^ (trials - successes)
  if successProbabiltyTerm = 0 ∨ mutExclProbabilityTerm = 0 then 0
  else
    let prob : ℚ :=
      if successProbabiltyTerm > mutExclProbabilityTerm then mutExclProbabilityTerm
      else successProbabiltyTerm
    let lastValue : ℚ :=
      if successProbabiltyTerm > mutExclProbabilityTerm then successProbabiltyTerm
      else mutExclProbabilityTerm
    let numeratorProductEnd : ℕ := if successes > trials - successes then successes else trials - successes
    let denominator : ℚ := if successes > trials - successes then ((trials - successes : ℕ) : ℚ) else (successes : ℚ)
    ratioLoop (trials - numeratorProductEnd) (trials : ℚ) denominator prob * lastValue

/-- The cumulative branch of `binom.dist`:
`for (successes; successes >= 0; successes--) total += binomDistCalc(...)`. -/
def binomCum (successes trials : ℕ) (probability : ℚ) : ℚ :=
  match successes with
  | 0 => binomDistCalc 0 trials probability
  | k + 1 => binomDistCalc (k + 1) trials probability + binomCum k trials probability

/-- `globalObject.binom.dist(successes, trials, probability, cumulative)`. -/
def binomDist (successes trials probability : ℚ) (cumulative : Bool) : Except String ℚ :=
  let errors := binomDistErrors successes trials probability
  if errors ≠ [] then .error (String.intercalate errSep errors)
  else if cumulative then .ok (binomCum successes.num.toNat trials.num.toNat probability)
  else .ok (binomDistCalc successes.num.toNat trials.num.toNat probability)

/-! ### `binom.inv` (src/savvystats.js:2523-2619) -/

/-- `binom.inv` error: cumulative probability out of range. -/
def binomInvMsgProb : String := "binom.inv: the cumulative probability must be a number between 0 and 1"

/-- `binom.inv` error: trials invalid. -/
def binomInvMsgTrials : String := "binom.inv: the trials must be an integer greater than 0"

/-- `binom.inv` error: success probability out of range. -/
def binomInvMsgSuccessProb : String := "binom.inv: The probability of success must be a number between 0 and 1"

/-- The `errors` array of `binom.inv`. -/
def binomInvErrors (cumulativeProb trials successProb : ℚ) : List String :=
  (if cumulativeProb < 0 ∨ cumulativeProb > 1 then [binomInvMsgProb] else []) ++
  (if trials.den ≠ 1 ∨ trials < 0 then [binomInvMsgTrials] else []) ++
  (if successProb < 0 ∨ successProb > 1 then [binomInvMsgSuccessProb] else [])

/-- The mutable locals of the `binom.inv` search loop.  `direction` and `iter`
are recomputed from scratch / only used for debugging and are not part of the
loop-carried state. -/
structure BState where
  k : ℚ
  step : ℚ
  decStep : Bool
  lastDiff : ℚ
  diff : ℚ
  deriving DecidableEq, Repr

/-- One iteration of the `binom.inv` `while` body (src/savvystats.js:2570-2614):
direction from the sign of `diff`, overshoot detection, step growth/decay
(floored at 1), clamped move of `k`, recomputation of `diff` via the cumulative
distribution, which can throw. -/
def binomBody (cumulativeProb trials successProb : ℚ) (s : BState) : Except String BState :=
  let direction : ℚ := if s.diff > 0 then 1 else if s.diff < 0 then -1 else 0
  let decStep : Bool := if s.lastDiff * s.diff < 0 then true else s.decStep
  let step : ℚ :=
    if decStep = false then s.step * 2
    else
      let st := s.step * (1 / 2)
      if st < 1 then 1 else st
  let k0 : ℚ := s.k + direction * step
  let k : ℚ := if k0 < 0 then 0 else if k0 > trials then trials else k0
  match binomDist k trials successProb true with
  | .error e => .error e
  | .ok F => .ok ⟨k, step, decStep, s.diff, cumulativeProb - F⟩

/-- The `binom.inv` search loop.  The guard is
`while (diff > 0 || Math.abs(step) !== 1)`; inside, after recomputing `diff`,
`if (diff === lastDiff) break` is the stall-detection exit.  The source has no
iteration cap, so the embedding is fuel-indexed; `none` means the fuel ran out
mid-loop. -/
def binomLoop (cumulativeProb trials successProb : ℚ) : ℕ → BState → Except String (Option BState)
  | 0, _ => .ok none
  | f + 1, s =>
    if s.diff > 0 ∨ |s.step| ≠ 1 then
      match binomBody cumulativeProb trials successProb s with
      | .error e => .error e
      | .ok s2 =>
        if s2.diff = s2.lastDiff then .ok (some s2)
        else binomLoop cumulativeProb trials successProb f s2
    else .ok (some s)

/-- `globalObject.binom.inv` up to (and including) the search loop, returning
the full final loop state.  The initial guess `Math.floor(trials*successProb)∓1`
is *not* clamped to `[0, trials]`; if it falls outside, the very first
`binom.dist` call throws. -/
def binomInvRun (fuel : ℕ) (cumulativeProb trials successProb : ℚ) : Except String (Option BState) :=
  let errors := binomInvErrors cumulativeProb trials successProb
  if errors ≠ [] then .error (String.intercalate errSep errors)
  else
    let k : ℚ :=
      if cumulativeProb < 1 / 2 then (⌊trials * successProb⌋ : ℚ) - 1
      else if cumulativeProb > 1 / 2 then (⌊trials * successProb⌋ : ℚ) + 1
      else (⌊trials * successProb⌋ : ℚ)
    match binomDist k trials successProb true with
    | .error e => .error e
    | .ok F => binomLoop cumulativeProb trials successProb fuel ⟨k, 2, false, 0, cumulativeProb - F⟩

/-- `globalObject.binom.inv`: the returned value is `Math.floor(k)` of the
final state.  `ok none` means the fuel ran out (the source would still be
looping). -/
def binomInv (fuel : ℕ) (cumulativeProb trials successProb : ℚ) : Except String (Option ℤ) :=
  (binomInvRun fuel cumulativeProb trials successProb).map (Option.map fun s => ⌊s.k⌋)

/-- The binomial mass computation as the specification's words describe it
(spec §4.3): return 0 when either power term is exactly 0; otherwise seed the
running product with the *smaller* of the two power terms, multiply in the
combinatorial ratio terms one at a time (the same pattern as `combinations`),
then multiply by the larger power term last.  Written from the spec, to be
compared against `binomDistCalc` (written from the source). -/
def binomPmfSpec (successes trials : ℕ) (probability : ℚ) : ℚ :=
  let pk : ℚ := probability ^ successes
  let qnk : ℚ := (1 - probability) ^ (trials - successes)
  if pk = 0 ∨ qnk = 0 then 0
  else min pk qnk * combinations (trials : ℚ) (successes : ℚ) * max pk qnk


/-! ### Real-valued part: special functions, normal and Poisson distributions

These functions use `Math.exp`, `Math.log`, `Math.sqrt`, `Math.round`,
`Math.PI`; they are embedded over `ℝ` (noncomputably).  Decimal literals are
exact rationals, matching the source text. -/

open Classical in
/-- Generic fuel-indexed while-loop: `while (guard) body` (condition checked
before each body execution).  A do-while loop is obtained by applying it to
`body s0`. -/
noncomputable def loopW {σ : Type} (guard : σ → Prop) (body : σ → σ) : ℕ → σ → σ
  | 0, s => s
  | f + 1, s => if guard s then loopW guard body f (body s) else s

/-- `lnGamma` error message (the `z < 0` branch). -/
def lnGammaMsgNeg : String := "lnGamma: the argument of this function must be positive"

/-- The Lanczos summation term of `lnGamma` (src/savvystats.js:2099-2106):
`sum = params[0] + Σ params[i]/(z+i)` for `i = 1..6`. -/
noncomputable def lnGammaSum (z : ℝ) : ℝ :=
  1.000000000190015 + 76.18009172947146 / (z + 1) + (-86.50532032941677) / (z + 2) +
    24.01409824083091 / (z + 3) + (-1.231739572450155) / (z + 4) +
    1.208650973866179e-3 / (z + 5) + (-5.395239384953e-6) / (z + 6)

/-- The answer formula of `lnGamma` (src/savvystats.js:2110). -/
noncomputable def lnGammaCalc (z : ℝ) : ℝ :=
  0.9189385332046727 - Real.log z + Real.log (lnGammaSum z) +
    (z + 0.5) * Real.log (z + 5.5) - (z + 5.5)

/-- `lnGamma(z)` (src/savvystats.js:2089-2112).  The source checks `isNaN(z)`
(unrepresentable here) and then `z < 0` — note: *strictly* negative, so `z = 0`
is accepted. -/
noncomputable def lnGamma (z : ℝ) : Except String ℝ :=
  if z < 0 then .error lnGammaMsgNeg else .ok (lnGammaCalc z)

/-- Loop state of the two series summations (`lnGammaIncomplete` and the
error-function series in `norm.dist`): running `sum`, current term `value`,
previous `lastSum`, and term counter `n`. -/
structure SeriesState where
  sum : ℝ
  value : ℝ
  lastSum : ℝ
  n : ℕ

/-- One iteration of the `lnGammaIncomplete` series (src/savvystats.js:2143-2155):
`lastSum = sum; value *= x/(a+n); sum += value; n++`. -/
noncomputable def gammaIncBody (a x : ℝ) (s : SeriesState) : SeriesState :=
  let value := s.value * (x / (a + (s.n : ℝ)))
  ⟨s.sum + value, value, s.sum, s.n + 1⟩

/-- The `do … while` guard of `lnGammaIncomplete`:
`Math.abs((sum - lastSum)/sum) > 2.0e-10 && n < 1000`. -/
def gammaIncGuard (s : SeriesState) : Prop :=
  |(s.sum - s.lastSum) / s.sum| > 2.0e-10 ∧ s.n < 1000

/-- The `lnGammaIncomplete` series loop. -/
noncomputable def gammaIncLoop (a x : ℝ) : ℕ → SeriesState → SeriesState :=
  loopW gammaIncGuard (gammaIncBody a x)

/-- `lnGammaIncomplete(a, x)` (src/savvystats.js:2123-2159).  Like
`combinations` and `t.conf`, its collected `errors` array (two `isNaN`
checks, unrepresentable over `ℝ`) is never thrown, so the function is total.
The do-while loop runs the body once and then while the guard holds; fuel
1001 exceeds the 1000-iteration cap. -/
noncomputable def lnGammaIncomplete (a x : ℝ) : ℝ :=
  let s0 : SeriesState := ⟨1 / a, 1 / a, 0, 1⟩
  a * Real.log x - x + Real.log ((gammaIncLoop a x 1001 (gammaIncBody a x s0)).sum)

/-- Loop state of the `lnBetaIncomplete` continued fraction: the two
numerator/denominator pairs, the two proposed solutions, and the term
counter. -/
structure BetaState where
  h0 : ℝ
  k0 : ℝ
  h1 : ℝ
  k1 : ℝ
  s0 : ℝ
  s1 : ℝ
  n : ℕ

/-- One iteration of the `lnBetaIncomplete` continued-fraction loop
(src/savvystats.js:2221-2257): odd term, even term, new proposed solutions,
then rescaling of all four h/k entries by `1/k_1`. -/
noncomputable def betaBody (x a b : ℝ) (s : BetaState) : BetaState :=
  let m := ((s.n : ℝ) - 1) / 2
  let dOdd := -(a + m) * (a + b + m) * x / (a + 2 * m) / (a + 2 * m + 1)
  let h0n := dOdd * s.h0 + s.h1
  let k0n := dOdd * s.k0 + s.k1
  let n2 := s.n + 1
  let m2 := (n2 : ℝ) / 2
  let dEven := m2 * (b - m2) * x / (a + 2 * m2 - 1) / (a + 2 * m2)
  let h1n := dEven * s.h1 + h0n
  let k1n := dEven * s.k1 + k0n
  let s0n := h0n / k0n
  let s1n := h1n / k1n
  ⟨h0n / k1n, k0n / k1n, s1n, 1, s0n, s1n, n2 + 1⟩

/-- The `while` guard of the continued fraction:
`Math.abs((s_1 - s_0)/s_1) > 2.0e-10 && n < 50`. -/
def betaGuard (s : BetaState) : Prop :=
  |(s.s1 - s.s0) / s.s1| > 2.0e-10 ∧ s.n < 50

/-- The `lnBetaIncomplete` continued-fraction loop (condition checked at the
loop head). -/
noncomputable def betaCFLoop (x a b : ℝ) : ℕ → BetaState → BetaState :=
  loopW betaGuard (betaBody x a b)

/-- `lnBetaIncomplete` error message for `x` out of `[0, 1]`. -/
def lnBetaMsgX : String := "lnBetaIncomplete: the parameter x must be between 0 and 1"

/-- `lnBetaIncomplete(x, a, b)` (src/savvystats.js:2175-2261): `x` outside
`[0, 1]` throws (the `isNaN` entries are unrepresentable); the continued
fraction starts from `h_0 = 0, k_0 = 1, h_1 = 1, k_1 = 1, n = 1` and the
result is log-transformed.  Fuel 51 exceeds the 50-term cap. -/
noncomputable def lnBetaIncomplete (x a b : ℝ) : Except String ℝ :=
  if x > 1 ∨ x < 0 then .error lnBetaMsgX
  else
    let s0 : BetaState := ⟨0, 1, 1, 1, 0 / 1, 1 / 1, 1⟩
    .ok (a * Real.log x + b * Real.log (1 - x) - Real.log a +
      Real.log ((betaCFLoop x a b 51 s0).s1))

/-- One iteration of the `norm.dist` error-function series
(src/savvystats.js:3226-3236):
`lastSum = sum; value *= (-1·t²·(2n-1))/(n·(2n+1)); sum += value; n++`. -/
noncomputable def erfBody (t : ℝ) (s : SeriesState) : SeriesState :=
  let value := s.value * ((-1) * t ^ 2 * (2 * (s.n : ℝ) - 1)) / ((s.n : ℝ) * (2 * (s.n : ℝ) + 1))
  ⟨s.sum + value, value, s.sum, s.n + 1⟩

/-- The do-while guard of the error-function series. -/
def erfGuard (s : SeriesState) : Prop :=
  |(s.sum - s.lastSum) / s.sum| > 2.0e-10 ∧ s.n < 1000

/-- The `norm.dist` error-function series loop. -/
noncomputable def erfSeriesLoop (t : ℝ) : ℕ → SeriesState → SeriesState :=
  loopW erfGuard (erfBody t)

/-- `globalObject.norm.dist(x, mean, stdev, cumulative)`
(src/savvystats.js:3189-3258).  Validation only checks `isNaN`
(unrepresentable over `ℝ`), so the embedding is total.  The
`Math.abs(errorFunction) === Infinity` branch of the clamp cannot arise over
`ℝ` and is dropped; the `> 1` and `< -1` clamps are kept. -/
noncomputable def normDist (x mean stdev : ℝ) (cumulative : Bool) : ℝ :=
  let errorFuncInput := ((x - mean) / stdev) / Real.sqrt 2
  if cumulative then
    let s0 : SeriesState := ⟨errorFuncInput, errorFuncInput, 0, 1⟩
    let errorFunction := 2 / Real.sqrt Real.pi *
      (erfSeriesLoop errorFuncInput 1001 (erfBody errorFuncInput s0)).sum
    if errorFunction > 1 then 1
    else if errorFunction < -1 then 0
    else 1 / 2 * (1 + errorFunction)
  else
    (1 / (stdev * Real.sqrt (2 * Real.pi))) *
      Real.exp (-1 / (2 * stdev ^ 2) * (x - mean) ^ 2)

/-- Loop state of the `norm.inv` search: guess `z`, current and previous
differences, step size, and the iteration counter `iter` that the guard
checks against 1000. -/
structure NInvState where
  z : ℝ
  diff : ℝ
  step : ℝ
  lastDiff : ℝ
  iter : ℕ

/-- One iteration of the `norm.inv` do-while body (src/savvystats.js:3318-3348):
recompute `diff` at the current guess, pick a direction, grow the step by 1.2
on same-sign differences or halve it after an overshoot, move `z`, save
`lastDiff`, count the iteration. -/
noncomputable def normInvBody (prob : ℝ) (s : NInvState) : NInvState :=
  let diff := prob - normDist s.z 0 1 true
  let direction : ℝ := if diff > 0 then 1 else if diff < 0 then -1 else 0
  let step := if s.lastDiff * diff > 0 then s.step * 1.2 else s.step * 0.5
  ⟨s.z + direction * step, diff, step, diff, s.iter + 1⟩

/-- The do-while guard of `norm.inv`:
`Math.abs(diff) > 1e-10 && iter < 1000`. -/
def normInvGuard (s : NInvState) : Prop := |s.diff| > 1.0e-10 ∧ s.iter < 1000

/-- The `norm.inv` search loop. -/
noncomputable def normInvLoop (prob : ℝ) : ℕ → NInvState → NInvState :=
  loopW normInvGuard (normInvBody prob)

/-- `norm.inv` error: probability out of range. -/
def normInvMsgProb : String := "norm.inv: the probability should be between 0 and 1 including the bounds"

/-- `norm.inv` error: negative standard deviation. -/
def normInvMsgStdev : String := "norm.inv: the standard deviation should be positive"

/-- `globalObject.norm.inv(prob, mean, stdev)` (src/savvystats.js:3268-3353):
validation, symmetric initial guess `∓0.5`, capped search, then
`z * stdev + mean`. -/
noncomputable def normInv (prob mean stdev : ℝ) : Except String ℝ :=
  let errors :=
    (if prob > 1 ∨ prob < 0 then [normInvMsgProb] else []) ++
    (if stdev < 0 then [normInvMsgStdev] else [])
  if errors ≠ [] then .error (String.intercalate errSep errors)
  else
    let z0 : ℝ := if prob < 1 / 2 then -0.5 else if prob > 1 / 2 then 0.5 else 0
    let s0 : NInvState := ⟨z0, 0, 0.25, 1, 0⟩
    .ok ((normInvLoop prob 1001 (normInvBody prob s0)).z * stdev + mean)

/-! ### Poisson distribution (src/savvystats.js:2864-3020) -/

/-- `poisson.dist` error: successes must be an integer. -/
def poissonDistMsgInt : String := "The number of successes must be an integer"

/-- `poisson.dist` error: successes must be positive. -/
def poissonDistMsgNeg : String := "The number of successes must be a positive integer"

/-- `poisson.dist` error: average successes must be positive. -/
def poissonDistMsgMu : String := "The average number of successes must be a positive number"

/-- JavaScript `s % 1`: the remainder takes the sign of the dividend, so it is
`s - ⌊s⌋` for `s ≥ 0` and `s - ⌈s⌉` for `s < 0`. -/
noncomputable def jsRemOne (s : ℝ) : ℝ :=
  s - (if 0 ≤ s then ((⌊s⌋ : ℝ)) else ((⌈s⌉ : ℝ)))

/-- The inner `poissonDistCalc(successes, avgSuccesses)` closure
(src/savvystats.js:2885-2890): `exp(k·ln(mu) - mu - lnGamma(k+1))`. -/
noncomputable def poissonDistCalc (successes avgSuccesses : ℝ) : ℝ :=
  Real.exp (successes * Real.log avgSuccesses - avgSuccesses - lnGammaCalc (successes + 1))

/-- The cumulative loop of `poisson.dist`:
`for (successes; successes >= 0; successes--) total += poissonDistCalc(...)`,
with the iteration count (`⌊k⌋ + 1` for `k ≥ 0`, else 0) precomputed. -/
noncomputable def poisCumGo (avgSuccesses : ℝ) : ℕ → ℝ → ℝ
  | 0, _ => 0
  | c + 1, k => poissonDistCalc k avgSuccesses + poisCumGo avgSuccesses c (k - 1)

/-- The `total` accumulated by the cumulative branch of `poisson.dist`. -/
noncomputable def poissonCumTotal (successes avgSuccesses : ℝ) : ℝ :=
  poisCumGo avgSuccesses (⌊successes⌋ + 1).toNat successes

/-- `globalObject.poisson.dist(successes, avgSuccesses, cumulative)`
(src/savvystats.js:2864-2910).  The cumulative branch coerces a total of
exactly `0.9999999999999999` to `1`. -/
noncomputable def poissonDist (successes avgSuccesses : ℝ) (cumulative : Bool) : Except String ℝ :=
  let errors :=
    (if jsRemOne successes > 0 then [poissonDistMsgInt] else []) ++
    (if successes < 0 then [poissonDistMsgNeg] else []) ++
    (if avgSuccesses < 0 then [poissonDistMsgMu] else [])
  if errors ≠ [] then .error (String.intercalate errSep errors)
  else if cumulative then
    .ok (if poissonCumTotal successes avgSuccesses = 0.9999999999999999 then 1
         else poissonCumTotal successes avgSuccesses)
  else .ok (poissonDistCalc successes avgSuccesses)

/-- `poisson.inv` error: cumulative probability out of range. -/
def poissonInvMsgProb : String := "poisson.inv: the cumulative probability must be a number between 0 and 1"

/-- `poisson.inv` error: negative mean rate. -/
def poissonInvMsgMu : String := "poisson.inv: the trials must be a number greater than 0"

/-- Loop state of the `poisson.inv` search (same shape as `binom.inv`, but
over `ℝ` and without an upper clamp on `k`). -/
structure PoisState where
  k : ℝ
  step : ℝ
  decStep : Bool
  lastDiff : ℝ
  diff : ℝ

/-- The result of `poisson.inv`: either the early `Infinity` return (reached
before any search iteration) or the final state of the search loop. -/
inductive PoisInvResult where
  | infinite : PoisInvResult
  | finite : PoisState → PoisInvResult

/-- One iteration of the `poisson.inv` search body (src/savvystats.js:2971-3015):
like `binom.inv` but `k` is only clamped below at 0. -/
noncomputable def poisInvBody (cumulativeProb avgSuccesses : ℝ) (s : PoisState) :
    Except String PoisState :=
  let direction : ℝ := if s.diff > 0 then 1 else if s.diff < 0 then -1 else 0
  let decStep : Bool := if s.lastDiff * s.diff < 0 then true else s.decStep
  let step : ℝ :=
    if decStep = false then s.step * 2
    else
      let st := s.step * (1 / 2)
      if st < 1 then 1 else st
  let k0 : ℝ := s.k + direction * step
  let k : ℝ := if k0 < 0 then 0 else k0
  match poissonDist k avgSuccesses true with
  | .error e => .error e
  | .ok F => .ok ⟨k, step, decStep, s.diff, cumulativeProb - F⟩

/-- The `poisson.inv` search loop (no iteration cap in the source; fuel
indexed, `none` = fuel ran out). -/
noncomputable def poisInvLoop (cumulativeProb avgSuccesses : ℝ) :
    ℕ → PoisState → Except String (Option PoisState)
  | 0, _ => .ok none
  | f + 1, s =>
    if s.diff > 0 ∨ |s.step| ≠ 1 then
      match poisInvBody cumulativeProb avgSuccesses s with
      | .error e => .error e
      | .ok s2 =>
        if s2.diff = s2.lastDiff then .ok (some s2)
        else poisInvLoop cumulativeProb avgSuccesses f s2
    else .ok (some s)

/-- `globalObject.poisson.inv(cumulativeProb, avgSuccesses)`
(src/savvystats.js:2920-3020): validation; then, *before any search step*,
`cumulativeProb >= 0.9999999999999999` returns `Infinity`
(`PoisInvResult.infinite`); otherwise the search runs from
`Math.round(avgSuccesses) ∓ 1`. -/
noncomputable def poissonInvRun (fuel : ℕ) (cumulativeProb avgSuccesses : ℝ) :
    Except String (Option PoisInvResult) :=
  let errors :=
    (if cumulativeProb < 0 ∨ cumulativeProb > 1 then [poissonInvMsgProb] else []) ++
    (if avgSuccesses < 0 then [poissonInvMsgMu] else [])
  if errors ≠ [] then .error (String.intercalate errSep errors)
  else if cumulativeProb ≥ 0.9999999999999999 then .ok (some PoisInvResult.infinite)
  else
    let k0 : ℝ :=
      if cumulativeProb < 1 / 2 then ((round avgSuccesses : ℤ) : ℝ) - 1
      else if cumulativeProb > 1 / 2 then ((round avgSuccesses : ℤ) : ℝ) + 1
      else ((round avgSuccesses : ℤ) : ℝ)
    match poissonDist k0 avgSuccesses true with
    | .error e => .error e
    | .ok F =>
      (poisInvLoop cumulativeProb avgSuccesses fuel ⟨k0, 2, false, 0, cumulativeProb - F⟩).map
        (Option.map PoisInvResult.finite)

/-- `poisson.inv` as a value: `none` inside the option stands for the
JavaScript `Infinity`, otherwise `Math.floor(k)` of the final state. -/
noncomputable def poissonInv (fuel : ℕ) (cumulativeProb avgSuccesses : ℝ) :
    Except String (Option (Option ℝ)) :=
  (poissonInvRun fuel cumulativeProb avgSuccesses).map (Option.map fun r =>
    match r with
    | .infinite => none
    | .finite s => some ((⌊s.k⌋ : ℝ)))

/-- Proof-carrying invariant of the `binom.inv` search loop: the guess `k` is
an integer clamped to `[0, trials]`, the step is a power of two (it starts at
2, doubles, and halves with a floor at 1), and `diff` is the difference
between the target and the cumulative probability at `k`. -/
def BInv (cumulativeProb trials successProb : ℚ) (s : BState) : Prop :=
  s.k.den = 1 ∧ 0 ≤ s.k ∧ s.k ≤ trials ∧ (∃ j : ℕ, s.step = 2 ^ j) ∧
    s.diff = cumulativeProb - binomCum s.k.num.toNat trials.num.toNat successProb

/-!
## Theorems
-/

/-- Joining a one-element error list yields the single message. -/
theorem intercalate_one (m : String) : String.intercalate errSep [m] = m := rfl

/-- Literal reduction helper for `Int.toNat`. -/
theorem intToNat_two : Int.toNat 2 = 2 := by decide

/-- Seeding the ratio-product loop with `acc` is the same as multiplying its
seed-1 value by `acc`. -/
theorem ratioLoop_eq_mul (i : ℕ) :
    ∀ num den acc : ℚ, ratioLoop i num den acc = acc * ratioLoop i num den 1 := by
  induction i with
  | zero => intro num den acc; simp [ratioLoop]
  | succ i ih =>
    intro num den acc
    rw [ratioLoop, ratioLoop, ih, ih (num - 1) (den - 1) (1 * (num / den))]
    ring

/-- The source's `a > b ? b : a` pattern is `min`. -/
theorem ite_gt_eq_min (a b : ℚ) : (if a > b then b else a) = min a b := by
  rcases le_or_lt a b with h | h
  · rw [if_neg (not_lt.mpr h), min_eq_left h]
  · rw [if_pos h, min_eq_right h.le]

/-- The source's `a > b ? a : b` pattern is `max`. -/
theorem ite_gt_eq_max (a b : ℚ) : (if a > b then a else b) = max a b := by
  rcases le_or_lt a b with h | h
  · rw [if_neg (not_lt.mpr h), max_eq_right h]
  · rw [if_pos h, max_eq_left h.le]

/-- `combinations` is invariant under replacing `k` by `n - k` (over `ℚ`). -/
theorem combinations_sub_symm (n k : ℚ) : combinations n k = combinations n (n - k) := by
  simp only [combinations, sub_sub_cancel]
  rcases lt_trichotomy k (n - k) with h | h | h
  · rw [if_neg (not_lt.mpr h.le), if_neg (not_lt.mpr h.le), if_pos h, if_pos h]
  · rw [show n - k = k from h.symm]
  · rw [if_pos h, if_pos h, if_neg (not_lt.mpr h.le), if_neg (not_lt.mpr h.le)]

/-- C7: for every pair of non-negative integers `n` and `k` with `k ≤ n`,
`combinations(n, k)` equals `combinations(n, n-k)`. -/
theorem c7_combinations_symmetry (n k : ℕ) (h : k ≤ n) :
    combinations (n : ℚ) (k : ℚ) = combinations (n : ℚ) (((n - k : ℕ) : ℚ)) := by
  rw [Nat.cast_sub h]
  exact combinations_sub_symm _ _

/-- Witness for C7 at `n = 5`, `k = 2`. -/
theorem c7_combinations_symmetry_witness :
    (2 : ℕ) ≤ 5 ∧ combinations ((5 : ℕ) : ℚ) ((2 : ℕ) : ℚ) = combinations ((5 : ℕ) : ℚ) (((5 - 2 : ℕ) : ℚ)) :=
  ⟨by norm_num, c7_combinations_symmetry 5 2 (by norm_num)⟩

/-- C2 (code bug): `combinations(5, 10)` violates the precondition `k ≤ n`;
the source records the violation in its `errors` array but, lacking the
`if (errors.length > 0) throw` block every other public function has, never
raises it and returns the computed value `1` instead of failing. -/
theorem c2_combinations_collects_but_never_throws :
    combinationsErrors 5 10 = [combinationsMsgKGtN] ∧ combinations 5 10 = 1 := by
  refine ⟨by norm_num [combinationsErrors], ?_⟩
  norm_num [combinations, ratioLoop]

/-- C1 counterexample: on the valid input `(0.3, 5, 0)` (cumulative
probability 0.3, 5 trials, success probability 0), `binom.inv` does not
terminate with its best estimate at all: its unclamped initial guess is
`Math.floor(5*0) - 1 = -1` and the very first `binom.dist` call throws. -/
theorem c1_counterexample_binomInv_throws :
    binomInv 100 (3 / 10) 5 0 = .error binomDistMsgSuccNeg := by
  norm_num [binomInv, binomInvRun, binomInvErrors, binomDist, binomDistErrors,
    intercalate_one, Except.map]

/-- The `binom.inv` loop keeps iterating: guard true, body succeeds, no stall. -/
theorem binomLoop_cont {cumulativeProb trials successProb : ℚ} {f : ℕ} {s s2 : BState}
    (hg : s.diff > 0 ∨ |s.step| ≠ 1)
    (hb : binomBody cumulativeProb trials successProb s = .ok s2)
    (hst : ¬ s2.diff = s2.lastDiff) :
    binomLoop cumulativeProb trials successProb (f + 1) s =
      binomLoop cumulativeProb trials successProb f s2 := by
  rw [binomLoop, if_pos hg, hb]
  exact if_neg hst

/-- The `binom.inv` loop exits through the stall-detection break. -/
theorem binomLoop_stall {cumulativeProb trials successProb : ℚ} {f : ℕ} {s s2 : BState}
    (hg : s.diff > 0 ∨ |s.step| ≠ 1)
    (hb : binomBody cumulativeProb trials successProb s = .ok s2)
    (hst : s2.diff = s2.lastDiff) :
    binomLoop cumulativeProb trials successProb (f + 1) s = .ok (some s2) := by
  rw [binomLoop, if_pos hg, hb]
  exact if_pos hst

/-- The `binom.inv` loop exits through its guard. -/
theorem binomLoop_done {cumulativeProb trials successProb : ℚ} {f : ℕ} {s : BState}
    (hg : ¬ (s.diff > 0 ∨ |s.step| ≠ 1)) :
    binomLoop cumulativeProb trials successProb (f + 1) s = .ok (some s) := by
  rw [binomLoop, if_neg hg]

/-- C3 counterexample: `binom.inv(1/4, 2, 1)` terminates (through the
stall-detection break) and returns `1`, but the cumulative probability at `1`
is `0 < 1/4` while `2` is the smallest integer whose cumulative probability
is `≥ 1/4`. -/
theorem c3_counterexample_stall_returns_below_boundary :
    binomInv 100 (1 / 4) 2 1 = .ok (some 1) ∧
      binomCum 1 2 1 < 1 / 4 ∧ 1 / 4 ≤ binomCum 2 2 1 := by
  have e0 : binomCum 0 2 1 = 0 := by norm_num [binomCum, binomDistCalc, ratioLoop]
  have e1 : binomCum 1 2 1 = 0 := by norm_num [binomCum, binomDistCalc, ratioLoop]
  have e2 : binomCum 2 2 1 = 1 := by norm_num [binomCum, binomDistCalc, ratioLoop]
  have hb0 : binomBody (1 / 4) 2 1 ⟨1, 2, false, 0, 1 / 4⟩ = .ok ⟨2, 4, false, 1 / 4, -3 / 4⟩ := by
    norm_num [binomBody, binomDist, binomDistErrors, intToNat_two, e2]
  have hb1 : binomBody (1 / 4) 2 1 ⟨2, 4, false, 1 / 4, -3 / 4⟩ = .ok ⟨0, 2, true, -3 / 4, 1 / 4⟩ := by
    norm_num [binomBody, binomDist, binomDistErrors, intToNat_two, e0]
  have hb2 : binomBody (1 / 4) 2 1 ⟨0, 2, true, -3 / 4, 1 / 4⟩ = .ok ⟨1, 1, true, 1 / 4, 1 / 4⟩ := by
    norm_num [binomBody, binomDist, binomDistErrors, intToNat_two, e1]
  have hrun : binomInvRun 100 (1 / 4) 2 1 = .ok (some ⟨1, 1, true, 1 / 4, 1 / 4⟩) := by
    have h0 : binomInvRun 100 (1 / 4) 2 1 = binomLoop (1 / 4) 2 1 100 ⟨1, 2, false, 0, 1 / 4⟩ := by
      norm_num [binomInvRun, binomInvErrors, binomDist, binomDistErrors, intToNat_two, e1]
    rw [h0, binomLoop_cont (by norm_num) hb0 (by norm_num), binomLoop_cont (by norm_num) hb1 (by norm_num),
      binomLoop_stall (by norm_num) hb2 (by norm_num)]
  refine ⟨?_, by rw [e1]; norm_num, by rw [e2]; norm_num⟩
  rw [binomInv, hrun]
  norm_num [Except.map]

/-- C4 helper: the mass computation from the source coincides with the
specification's description of it. -/
theorem binomDistCalc_eq_spec (k n : ℕ) (p : ℚ) (h : k ≤ n) :
    binomDistCalc k n p = binomPmfSpec k n p := by
  simp only [binomDistCalc, binomPmfSpec]
  by_cases h0 : p ^ k = 0 ∨ (1 - p) ^ (n - k) = 0
  · rw [if_pos h0, if_pos h0]
  · rw [if_neg h0, if_neg h0]
    by_cases hk : n - k < k
    · have hn2 : n < 2 * k := by omega
      have hkq : (n : ℚ) - k < k := by
        have : (n : ℚ) < 2 * k := by exact_mod_cast hn2
        linarith
      simp only [combinations, gt_iff_lt, if_pos hk, if_pos hkq]
      rw [← Nat.cast_sub h, Int.ceil_natCast, Int.toNat_natCast]
      rw [ratioLoop_eq_mul, ite_gt_eq_min, ite_gt_eq_max]
    · have hk2 : k ≤ n - k := by omega
      have hkq : ¬ ((n : ℚ) - k < k) := by
        have hn2 : 2 * k ≤ n := by omega
        have : (2 : ℚ) * k ≤ n := by exact_mod_cast hn2
        push_neg
        linarith
      have hsub : n - (n - k) = k := by omega
      simp only [combinations, gt_iff_lt, if_neg hk, if_neg hkq]
      rw [sub_sub_cancel, Int.ceil_natCast, Int.toNat_natCast, hsub]
      rw [ratioLoop_eq_mul, ite_gt_eq_min, ite_gt_eq_max]



/-- Eliminate a successful `binom.dist` call: all preconditions hold and the
value is the cumulative (or plain) mass at the integer arguments. -/
theorem binomDist_ok_elim {successes trials probability : ℚ} {c : Bool} {v : ℚ}
    (h : binomDist successes trials probability c = .ok v) :
    successes.den = 1 ∧ 0 ≤ successes ∧ trials.den = 1 ∧ 0 ≤ trials ∧
      successes ≤ trials ∧ 0 ≤ probability ∧ probability ≤ 1 ∧
      v = (if c then binomCum successes.num.toNat trials.num.toNat probability
            else binomDistCalc successes.num.toNat trials.num.toNat probability) := by
  rw [binomDist] at h
  by_cases he : binomDistErrors successes trials probability ≠ []
  · rw [if_pos he] at h
    exact absurd h (by simp)
  · push_neg at he
    rw [if_neg (by simp [he])] at h
    have hconds := he
    simp only [binomDistErrors, List.append_eq_nil, ite_eq_right_iff,
      List.cons_ne_nil, imp_false, not_lt, not_or, ne_eq, not_not] at hconds
    obtain ⟨⟨⟨⟨⟨h1, h2⟩, h3⟩, h4⟩, h5⟩, h6⟩ := hconds
    refine ⟨h1, h2, h3, h4, h5, ?_, ?_, ?_⟩
    · exact h6.2
    · exact h6.1
    · cases c with
      | true => simpa using h.symm
      | false => simpa using h.symm

/-- A successful `binomBody` step preserves the loop invariant and records the
previous difference in `lastDiff`. -/
theorem binomBody_ok_elim {cumulativeProb trials successProb : ℚ} {u s2 : BState}
    (hstep : ∃ j : ℕ, u.step = 2 ^ j)
    (h : binomBody cumulativeProb trials successProb u = .ok s2) :
    BInv cumulativeProb trials successProb s2 ∧ s2.lastDiff = u.diff := by
  rw [binomBody] at h
  set direction : ℚ := if u.diff > 0 then 1 else if u.diff < 0 then -1 else 0 with hdir
  set step : ℚ :=
    if (if u.lastDiff * u.diff < 0 then true else u.decStep) = false then u.step * 2
    else if u.step * (1 / 2) < 1 then 1 else u.step * (1 / 2) with hstepdef
  set k0 : ℚ := u.k + direction * step with hk0
  set k : ℚ := if k0 < 0 then 0 else if k0 > trials then trials else k0 with hk
  cases hd : binomDist k trials successProb true with
  | error e => rw [hd] at h; exact absurd h (by simp)
  | ok F =>
    rw [hd] at h
    obtain ⟨hden, h0k, _, _, hkt, _, _, hF⟩ := binomDist_ok_elim hd
    simp only [Except.ok.injEq] at h
    subst h
    constructor
    · refine ⟨hden, h0k, hkt, ?_, ?_⟩
      · obtain ⟨j, hj⟩ := hstep
        by_cases hdec : (if u.lastDiff * u.diff < 0 then true else u.decStep) = false
        · exact ⟨j + 1, by rw [hstepdef, if_pos hdec, hj]; ring⟩
        · rw [hstepdef, if_neg hdec]
          cases j with
          | zero =>
            refine ⟨0, ?_⟩
            rw [hj]
            norm_num
          | succ j =>
            refine ⟨j, ?_⟩
            have h1 : (1 : ℚ) ≤ 2 ^ j := by
              have h2 : (1 : ℕ) ≤ 2 ^ j := Nat.one_le_two_pow
              exact_mod_cast h2
            have h3 : (2 : ℚ) ^ (j + 1) * (1 / 2) = 2 ^ j := by
              rw [pow_succ]
              ring
            have hnot : ¬ ((2 : ℚ) ^ (j + 1) * (1 / 2) < 1) := by
              rw [h3]
              exact not_lt.mpr h1
            rw [hj, if_neg hnot, h3]
      · simp only [hF, if_pos]
    · rfl

/-- Any `some` result of the `binom.inv` loop satisfies the invariant, exits
either through the stall break (`diff = lastDiff`) or through the guard
(`diff ≤ 0` and `|step| = 1`), and is either the entry state or the output of
one further `binomBody` step from an invariant state. -/
theorem binomLoop_ok_elim {cumulativeProb trials successProb : ℚ} :
    ∀ (f : ℕ) (s tfin : BState), BInv cumulativeProb trials successProb s →
      binomLoop cumulativeProb trials successProb f s = .ok (some tfin) →
      BInv cumulativeProb trials successProb tfin ∧
        (tfin.diff = tfin.lastDiff ∨ (tfin.diff ≤ 0 ∧ |tfin.step| = 1)) ∧
        (tfin = s ∨ ∃ u, BInv cumulativeProb trials successProb u ∧
          binomBody cumulativeProb trials successProb u = .ok tfin) := by
  intro f
  induction f with
  | zero =>
    intro s tfin _ h
    exact absurd h (by simp [binomLoop])
  | succ f ih =>
    intro s tfin hs h
    rw [binomLoop] at h
    by_cases hg : s.diff > 0 ∨ |s.step| ≠ 1
    · rw [if_pos hg] at h
      cases hb : binomBody cumulativeProb trials successProb s with
      | error e =>
        simp only [hb] at h
        exact absurd h (by simp)
      | ok s2 =>
        simp only [hb] at h
        have hs2 := (binomBody_ok_elim hs.2.2.2.1 hb).1
        by_cases hst : s2.diff = s2.lastDiff
        · rw [if_pos hst] at h
          simp only [Except.ok.injEq, Option.some.injEq] at h
          subst h
          exact ⟨hs2, Or.inl hst, Or.inr ⟨s, hs, hb⟩⟩
        · rw [if_neg hst] at h
          obtain ⟨hinv, hexit, hprov⟩ := ih s2 tfin hs2 h
          refine ⟨hinv, hexit, ?_⟩
          rcases hprov with rfl | hprov
          · exact Or.inr ⟨s, hs, hb⟩
          · exact Or.inr hprov
    · rw [if_neg hg] at h
      simp only [Except.ok.injEq, Option.some.injEq] at h
      subst h
      push_neg at hg
      exact ⟨hs, Or.inr ⟨hg.1, hg.2⟩, Or.inl rfl⟩

/-- Eliminate a `some` result of `binom.inv`: the inputs passed validation,
the final state satisfies the invariant, the exit was stall or guard, and a
final-step provenance is available (`lastDiff = 0` only for the entry state). -/
theorem binomInvRun_ok_elim {fuel : ℕ} {cumulativeProb trials successProb : ℚ} {tfin : BState}
    (h : binomInvRun fuel cumulativeProb trials successProb = .ok (some tfin)) :
    0 ≤ successProb ∧ successProb ≤ 1 ∧ trials.den = 1 ∧ 0 ≤ trials ∧
      BInv cumulativeProb trials successProb tfin ∧
      (tfin.diff = tfin.lastDiff ∨ (tfin.diff ≤ 0 ∧ |tfin.step| = 1)) ∧
      (tfin.lastDiff = 0 ∨ ∃ u, BInv cumulativeProb trials successProb u ∧
        binomBody cumulativeProb trials successProb u = .ok tfin) := by
  rw [binomInvRun] at h
  by_cases he : binomInvErrors cumulativeProb trials successProb ≠ []
  · rw [if_pos he] at h
    exact absurd h (by simp)
  · rw [if_neg he] at h
    set k : ℚ :=
      if cumulativeProb < 1 / 2 then ((⌊trials * successProb⌋ : ℚ)) - 1
      else if cumulativeProb > 1 / 2 then ((⌊trials * successProb⌋ : ℚ)) + 1
      else ((⌊trials * successProb⌋ : ℚ)) with hkdef
    cases hd : binomDist k trials successProb true with
    | error e =>
      simp only [hd] at h
      exact absurd h (by simp)
    | ok F =>
      simp only [hd] at h
      obtain ⟨hden, h0k, htden, h0t, hkt, hp0, hp1, hF⟩ := binomDist_ok_elim hd
      have hs0 : BInv cumulativeProb trials successProb ⟨k, 2, false, 0, cumulativeProb - F⟩ := by
        refine ⟨hden, h0k, hkt, ⟨1, by norm_num⟩, ?_⟩
        simp only [hF, if_pos]
      obtain ⟨hinv, hexit, hprov⟩ := binomLoop_ok_elim fuel _ tfin hs0 h
      refine ⟨hp0, hp1, htden, h0t, hinv, hexit, ?_⟩
      rcases hprov with rfl | hprov
      · exact Or.inl rfl
      · exact Or.inr hprov

/-- The ratio loop preserves non-negativity: with `i ≤ den ≤ num` every factor
`num/den` along the loop is positive. -/
theorem ratioLoop_nonneg :
    ∀ (i : ℕ) (num den acc : ℚ), 0 ≤ acc → (i : ℚ) ≤ den → den ≤ num →
      0 ≤ ratioLoop i num den acc := by
  intro i
  induction i with
  | zero =>
    intro num den acc hacc _ _
    simpa [ratioLoop] using hacc
  | succ i ih =>
    intro num den acc hacc hiden hdn
    have h0i : (0 : ℚ) ≤ (i : ℚ) := Nat.cast_nonneg i
    have hden : (0 : ℚ) < den := by
      push_cast at hiden
      linarith
    have hnum : (0 : ℚ) < num := lt_of_lt_of_le hden hdn
    rw [ratioLoop]
    apply ih
    · exact mul_nonneg hacc (div_nonneg hnum.le hden.le)
    · push_cast at hiden ⊢
      linarith
    · linarith

/-- On the valid domain `0 ≤ p ≤ 1` the binomial mass computed by the source
is non-negative. -/
theorem binomDistCalc_nonneg (k n : ℕ) (p : ℚ) (h0 : 0 ≤ p) (h1 : p ≤ 1) :
    0 ≤ binomDistCalc k n p := by
  rw [binomDistCalc]
  by_cases hz : p ^ k = 0 ∨ (1 - p) ^ (n - k) = 0
  · rw [if_pos hz]
  · rw [if_neg hz]
    have hspt : (0 : ℚ) ≤ p ^ k := pow_nonneg h0 k
    have hmept : (0 : ℚ) ≤ (1 - p) ^ (n - k) := pow_nonneg (by linarith) (n - k)
    have hprob : (0 : ℚ) ≤
        (if p ^ k > (1 - p) ^ (n - k) then (1 - p) ^ (n - k) else p ^ k) := by
      split <;> assumption
    have hlast : (0 : ℚ) ≤
        (if p ^ k > (1 - p) ^ (n - k) then p ^ k else (1 - p) ^ (n - k)) := by
      split <;> assumption
    apply mul_nonneg _ hlast
    by_cases hk : k > n - k
    · rw [if_pos hk, if_pos hk]
      apply ratioLoop_nonneg _ _ _ _ hprob
      · exact le_refl _
      · exact_mod_cast Nat.sub_le n k
    · rw [if_neg hk, if_neg hk]
      apply ratioLoop_nonneg _ _ _ _ hprob
      · exact_mod_cast (by omega : n - (n - k) ≤ k)
      · exact_mod_cast (by omega : k ≤ n)

/-- The cumulative binomial mass is monotone in the number of successes. -/
theorem binomCum_mono (n : ℕ) (p : ℚ) (h0 : 0 ≤ p) (h1 : p ≤ 1) :
    ∀ {j k : ℕ}, j ≤ k → binomCum j n p ≤ binomCum k n p := by
  intro j k hjk
  induction k with
  | zero =>
    have hj : j = 0 := Nat.le_zero.mp hjk
    subst hj
    exact le_refl _
  | succ k ih =>
    by_cases hj : j = k + 1
    · subst hj
      exact le_refl _
    · have hjk2 : j ≤ k := by omega
      calc binomCum j n p ≤ binomCum k n p := ih hjk2
        _ ≤ binomDistCalc (k + 1) n p + binomCum k n p := by
            have := binomDistCalc_nonneg (k + 1) n p h0 h1
            linarith
        _ = binomCum (k + 1) n p := rfl

/-- Cast bookkeeping: `num.toNat` of a natural-number cast. -/
theorem natCast_num_toNat (m : ℕ) : ((m : ℚ)).num.toNat = m := by
  rw [Rat.num_natCast]
  omega

/-- Cast bookkeeping: an integer-valued non-negative rational is the cast of
the `ℕ`-valued `num.toNat`. -/
theorem rat_toNat_cast {q : ℚ} (hden : q.den = 1) (h0 : 0 ≤ q) :
    ((q.num.toNat : ℕ) : ℚ) = q := by
  have h1 : ((q.num : ℚ)) = q := Rat.coe_int_num_of_den_eq_one hden
  have h2 : (0 : ℤ) ≤ q.num := Rat.num_nonneg.mpr h0
  have h3 : ((q.num.toNat : ℤ)) = q.num := Int.toNat_of_nonneg h2
  rw [← h1]
  exact_mod_cast congrArg (fun z : ℤ => ((z : ℚ))) h3

/-- C9: whenever `binom.inv` terminates with a value on valid inputs, the
value is `Math.floor` of the final guess, it is an integer in `[0, trials]`,
and the floor loses nothing because the guess is already an integer. -/
theorem c9_binomInv_result_in_range (fuel : ℕ) (cumulativeProb trials successProb : ℚ)
    (s : BState) (h : binomInvRun fuel cumulativeProb trials successProb = .ok (some s)) :
    binomInv fuel cumulativeProb trials successProb = .ok (some ⌊s.k⌋) ∧
      0 ≤ ⌊s.k⌋ ∧ ((⌊s.k⌋ : ℚ)) ≤ trials ∧ ((⌊s.k⌋ : ℚ)) = s.k := by
  obtain ⟨-, -, -, -, hinv, -, -⟩ := binomInvRun_ok_elim h
  obtain ⟨hden, h0, hle, -, -⟩ := hinv
  have h1 : ((s.k.num : ℚ)) = s.k := Rat.coe_int_num_of_den_eq_one hden
  have hfl : ⌊s.k⌋ = s.k.num := by
    conv_lhs => rw [← h1]
    exact Int.floor_intCast s.k.num
  refine ⟨?_, ?_, ?_, ?_⟩
  · rw [binomInv, h]
    rfl
  · rw [hfl]
    exact Rat.num_nonneg.mpr h0
  · rw [hfl, h1]
    exact hle
  · rw [hfl, h1]

/-- C3 (amended): whenever the `binom.inv` search loop does not exit through
the stall-detection break, its result `k` has cumulative probability `≥` the
target; and when the loop's final move was an upward unit step (previous
difference positive), `k` is the *smallest* integer whose cumulative
probability reaches the target. -/
theorem c3_amended_binomInv_guard_exit (fuel : ℕ)
    (cumulativeProb trials successProb : ℚ) (s : BState)
    (h : binomInvRun fuel cumulativeProb trials successProb = .ok (some s))
    (hstall : ¬ s.diff = s.lastDiff) :
    cumulativeProb ≤ binomCum s.k.num.toNat trials.num.toNat successProb ∧
      (0 < s.lastDiff →
        IsLeast {m : ℕ | cumulativeProb ≤ binomCum m trials.num.toNat successProb}
          s.k.num.toNat) := by
  obtain ⟨hp0, hp1, htden, h0t, hinv, hexit, hprov⟩ := binomInvRun_ok_elim h
  obtain ⟨hguard1, hguard2⟩ := hexit.resolve_left hstall
  have hdiffeq := hinv.2.2.2.2
  have hFs : cumulativeProb ≤ binomCum s.k.num.toNat trials.num.toNat successProb := by
    linarith [hguard1, hdiffeq.ge, hdiffeq.le]
  refine ⟨hFs, ?_⟩
  intro hup
  rcases hprov with h0' | ⟨u, hu, hb⟩
  · rw [h0'] at hup
    exact absurd hup (lt_irrefl 0)
  obtain ⟨hud, hu0, hut, hustep, hudiff⟩ := hu
  rw [binomBody] at hb
  set step : ℚ :=
    if (if u.lastDiff * u.diff < 0 then true else u.decStep) = false then u.step * 2
    else if u.step * (1 / 2) < 1 then 1 else u.step * (1 / 2) with hstepdef
  cases hd : binomDist (if u.k + (if u.diff > 0 then 1 else if u.diff < 0 then -1 else 0) * step < 0 then 0
      else if u.k + (if u.diff > 0 then 1 else if u.diff < 0 then -1 else 0) * step > trials then trials
      else u.k + (if u.diff > 0 then 1 else if u.diff < 0 then -1 else 0) * step) trials successProb true with
  | error e =>
    rw [hd] at hb
    exact absurd hb (by simp)
  | ok F =>
    simp only [hd, Except.ok.injEq] at hb
    have hlast : s.lastDiff = u.diff := by rw [← hb]
    have hstep' : s.step = step := by rw [← hb]
    have hupd : 0 < u.diff := by rw [← hlast]; exact hup
    have hdir : (if u.diff > 0 then (1 : ℚ) else if u.diff < 0 then -1 else 0) = 1 :=
      if_pos hupd
    rw [hdir] at hd hb
    have hstep1 : step = 1 := by
      obtain ⟨j, hj⟩ := hinv.2.2.2.1
      have hsj : step = 2 ^ j := by rw [← hstep', hj]
      have hpos : (0 : ℚ) < step := by rw [hsj]; positivity
      have habs : |step| = 1 := by rw [← hstep']; exact hguard2
      rwa [abs_of_pos hpos] at habs
    have hk01 : u.k + 1 * step = u.k + 1 := by rw [hstep1]; ring
    rw [hk01] at hd hb
    have hnotneg : ¬ (u.k + 1 < 0) := by linarith
    rw [if_neg hnotneg] at hd hb
    by_cases hover : u.k + 1 > trials
    · rw [if_pos hover] at hd hb
      have hteq : u.k = trials := by
        have hukn : ((u.k.num : ℚ)) = u.k := Rat.coe_int_num_of_den_eq_one hud
        have htn : ((trials.num : ℚ)) = trials := Rat.coe_int_num_of_den_eq_one htden
        have h1 : u.k.num ≤ trials.num := by
          rw [← hukn, ← htn] at hut
          exact_mod_cast hut
        have h2 : trials.num < u.k.num + 1 := by
          have h2a : trials < u.k + 1 := hover
          rw [← hukn, ← htn] at h2a
          exact_mod_cast h2a
        have h3 : u.k.num = trials.num := by omega
        rw [← hukn, ← htn, h3]
      obtain ⟨-, -, -, -, -, -, -, hF⟩ := binomDist_ok_elim hd
      have hsdiff : s.diff = cumulativeProb - F := by rw [← hb]
      have hNeq : u.k.num.toNat = trials.num.toNat := by rw [hteq]
      have hcontr : s.diff = s.lastDiff := by
        rw [hsdiff, hF, hlast, hudiff, hNeq]
        simp
      exact absurd hcontr hstall
    · rw [if_neg hover] at hd hb
      obtain ⟨-, -, -, -, -, -, -, hF⟩ := binomDist_ok_elim hd
      have hsk : s.k = u.k + 1 := by rw [← hb]
      set uN := u.k.num.toNat with huN
      have hcastu : ((uN : ℕ) : ℚ) = u.k := rat_toNat_cast hud hu0
      have hcast1 : ((uN + 1 : ℕ) : ℚ) = u.k + 1 := by
        rw [Nat.cast_add, Nat.cast_one, hcastu]
      have hsN : s.k.num.toNat = uN + 1 := by
        rw [hsk, ← hcast1]
        exact natCast_num_toNat (uN + 1)
      have hltu : binomCum uN trials.num.toNat successProb < cumulativeProb := by
        rw [hudiff] at hupd
        linarith
      rw [hsN] at hFs ⊢
      refine ⟨hFs, ?_⟩
      intro m hm
      by_contra hcon
      push_neg at hcon
      have hm2 : m ≤ uN := by omega
      have hmono := binomCum_mono trials.num.toNat successProb hp0 hp1 hm2
      have hmm : cumulativeProb ≤ binomCum m trials.num.toNat successProb := hm
      linarith

/-- Absolute-value of the literal 4 over `ℚ`. -/
theorem abs_four_q : |(4 : ℚ)| = 4 := abs_of_pos (by norm_num)

/-- Absolute-value of the literal 2 over `ℚ`. -/
theorem abs_two_q : |(2 : ℚ)| = 2 := abs_of_pos (by norm_num)

/-- C4: when `p^k` or `(1-p)^(n-k)` evaluates to exactly 0, the
non-cumulative `binom.dist` returns exactly 0; otherwise the mass computation
follows the order the spec describes: running product seeded with the smaller
power term, combinatorial ratio terms multiplied in one at a time, larger
power term multiplied last. -/
theorem c4_binom_mass_underflow_and_ordering :
    (∀ (successes trials : ℕ) (p : ℚ), 0 ≤ p → p ≤ 1 → successes ≤ trials →
        (p ^ successes = 0 ∨ (1 - p) ^ (trials - successes) = 0) →
        binomDist (successes : ℚ) (trials : ℚ) p false = .ok 0) ∧
      ∀ (successes trials : ℕ) (p : ℚ), successes ≤ trials →
        binomDistCalc successes trials p = binomPmfSpec successes trials p := by
  constructor
  · intro k n p h0 h1 hkn hzero
    have c2 : ¬ ((k : ℚ) < 0) := not_lt.mpr (Nat.cast_nonneg k)
    have c4 : ¬ ((n : ℚ) < 0) := not_lt.mpr (Nat.cast_nonneg n)
    have c5 : ¬ ((k : ℚ) > (n : ℚ)) := not_lt.mpr (Nat.cast_le.mpr hkn)
    have c6 : ¬ (p > 1 ∨ p < 0) := by
      push_neg
      exact ⟨h1, h0⟩
    have herr : binomDistErrors (k : ℚ) (n : ℚ) p = [] := by
      simp [binomDistErrors, c2, c4, c5, c6, Rat.den_natCast]
    have hok : binomDist (k : ℚ) (n : ℚ) p false = .ok (binomDistCalc k n p) := by
      simp [binomDist, herr, natCast_num_toNat]
    rw [hok, binomDistCalc, if_pos hzero]
  · exact binomDistCalc_eq_spec

/-- Witness for C4: `p = 0, k = n = 1` exercises the underflow branch, and
`k = 1, n = 2, p = 1/2` the structural equality. -/
theorem c4_binom_mass_underflow_and_ordering_witness :
    binomDist ((1 : ℕ) : ℚ) ((1 : ℕ) : ℚ) 0 false = .ok 0 ∧
      binomDistCalc 1 2 (1 / 2) = binomPmfSpec 1 2 (1 / 2) :=
  ⟨c4_binom_mass_underflow_and_ordering.1 1 1 0 (le_refl 0) zero_le_one (le_refl 1)
      (Or.inl (by norm_num)),
    c4_binom_mass_underflow_and_ordering.2 1 2 (1 / 2) (by norm_num)⟩

/-- Witness for the amended C3 at `binom.inv(9/10, 2, 1/2)`: the search exits
through its guard after an upward unit step and returns `2`, which is the
least integer whose cumulative probability reaches `9/10`. -/
theorem c3_amended_binomInv_guard_exit_witness :
    (9 / 10 : ℚ) ≤ binomCum 2 2 (1 / 2) ∧
      IsLeast {m : ℕ | (9 / 10 : ℚ) ≤ binomCum m 2 (1 / 2)} 2 := by
  have e0 : binomCum 0 2 (1 / 2) = 1 / 4 := by norm_num [binomCum, binomDistCalc, ratioLoop]
  have e1 : binomCum 1 2 (1 / 2) = 3 / 4 := by norm_num [binomCum, binomDistCalc, ratioLoop]
  have e2 : binomCum 2 2 (1 / 2) = 1 := by norm_num [binomCum, binomDistCalc, ratioLoop]
  have hb0 : binomBody (9 / 10) 2 (1 / 2) ⟨2, 2, false, 0, -1 / 10⟩ =
      .ok ⟨0, 4, false, -1 / 10, 13 / 20⟩ := by
    norm_num [binomBody, binomDist, binomDistErrors, intToNat_two, e0, e1, e2]
  have hb1 : binomBody (9 / 10) 2 (1 / 2) ⟨0, 4, false, -1 / 10, 13 / 20⟩ =
      .ok ⟨2, 2, true, 13 / 20, -1 / 10⟩ := by
    norm_num [binomBody, binomDist, binomDistErrors, intToNat_two, e0, e1, e2]
  have hb2 : binomBody (9 / 10) 2 (1 / 2) ⟨2, 2, true, 13 / 20, -1 / 10⟩ =
      .ok ⟨1, 1, true, -1 / 10, 3 / 20⟩ := by
    norm_num [binomBody, binomDist, binomDistErrors, intToNat_two, e0, e1, e2]
  have hb3 : binomBody (9 / 10) 2 (1 / 2) ⟨1, 1, true, -1 / 10, 3 / 20⟩ =
      .ok ⟨2, 1, true, 3 / 20, -1 / 10⟩ := by
    norm_num [binomBody, binomDist, binomDistErrors, intToNat_two, e0, e1, e2]
  have hrun : binomInvRun 100 (9 / 10) 2 (1 / 2) = .ok (some ⟨2, 1, true, 3 / 20, -1 / 10⟩) := by
    have h0 : binomInvRun 100 (9 / 10) 2 (1 / 2) =
        binomLoop (9 / 10) 2 (1 / 2) 100 ⟨2, 2, false, 0, -1 / 10⟩ := by
      norm_num [binomInvRun, binomInvErrors, binomDist, binomDistErrors, intToNat_two, e2]
    rw [h0, binomLoop_cont (by norm_num [abs_two_q]) hb0 (by norm_num),
      binomLoop_cont (by norm_num [abs_four_q]) hb1 (by norm_num),
      binomLoop_cont (by norm_num [abs_two_q]) hb2 (by norm_num),
      binomLoop_cont (by norm_num) hb3 (by norm_num),
      binomLoop_done (by norm_num [abs_one])]
  have hmain := c3_amended_binomInv_guard_exit 100 (9 / 10) 2 (1 / 2)
    ⟨2, 1, true, 3 / 20, -1 / 10⟩ hrun (by norm_num)
  have hleast := hmain.2 (by norm_num)
  constructor
  · have h1 := hmain.1
    simpa [intToNat_two] using h1
  · have h2 := hleast
    simp only [intToNat_two] at h2
    exact h2

/-- Witness for C9 at `binom.inv(3/4, 2, 1/2)`: the search returns the
integer `1`, which lies in `[0, 2]`. -/
theorem c9_binomInv_result_in_range_witness :
    binomInv 100 (3 / 4) 2 (1 / 2) = .ok (some 1) ∧ ((1 : ℤ) : ℚ) ≤ 2 := by
  have e0 : binomCum 0 2 (1 / 2) = 1 / 4 := by norm_num [binomCum, binomDistCalc, ratioLoop]
  have e1 : binomCum 1 2 (1 / 2) = 3 / 4 := by norm_num [binomCum, binomDistCalc, ratioLoop]
  have e2 : binomCum 2 2 (1 / 2) = 1 := by norm_num [binomCum, binomDistCalc, ratioLoop]
  have hb0 : binomBody (3 / 4) 2 (1 / 2) ⟨2, 2, false, 0, -1 / 4⟩ =
      .ok ⟨0, 4, false, -1 / 4, 1 / 2⟩ := by
    norm_num [binomBody, binomDist, binomDistErrors, intToNat_two, e0, e1, e2]
  have hb1 : binomBody (3 / 4) 2 (1 / 2) ⟨0, 4, false, -1 / 4, 1 / 2⟩ =
      .ok ⟨2, 2, true, 1 / 2, -1 / 4⟩ := by
    norm_num [binomBody, binomDist, binomDistErrors, intToNat_two, e0, e1, e2]
  have hb2 : binomBody (3 / 4) 2 (1 / 2) ⟨2, 2, true, 1 / 2, -1 / 4⟩ =
      .ok ⟨1, 1, true, -1 / 4, 0⟩ := by
    norm_num [binomBody, binomDist, binomDistErrors, intToNat_two, e0, e1, e2]
  have hrun : binomInvRun 100 (3 / 4) 2 (1 / 2) = .ok (some ⟨1, 1, true, -1 / 4, 0⟩) := by
    have h0 : binomInvRun 100 (3 / 4) 2 (1 / 2) =
        binomLoop (3 / 4) 2 (1 / 2) 100 ⟨2, 2, false, 0, -1 / 4⟩ := by
      norm_num [binomInvRun, binomInvErrors, binomDist, binomDistErrors, intToNat_two, e2]
    rw [h0, binomLoop_cont (by norm_num [abs_two_q]) hb0 (by norm_num),
      binomLoop_cont (by norm_num [abs_four_q]) hb1 (by norm_num),
      binomLoop_cont (by norm_num [abs_two_q]) hb2 (by norm_num),
      binomLoop_done (by norm_num [abs_one])]
  have h := c9_binomInv_result_in_range 100 (3 / 4) 2 (1 / 2) ⟨1, 1, true, -1 / 4, 0⟩ hrun
  constructor
  · rw [h.1]
    norm_num [Int.floor_one]
  · have hc := h.2.2.1
    simp only [Int.floor_one, Int.cast_one] at hc ⊢
    exact_mod_cast hc

/-- Fuel-stability of `loopW`: if a measure strictly decreases on every
guarded step, any fuel above the measure gives the same result — i.e. the
loop performs at most `meas s` iterations. -/
theorem loopW_stable {σ : Type} (guard : σ → Prop) (body : σ → σ) (meas : σ → ℕ)
    (hdec : ∀ s, guard s → meas (body s) < meas s) :
    ∀ (f g : ℕ) (s : σ), meas s < f → meas s < g →
      loopW guard body f s = loopW guard body g s := by
  intro f
  induction f with
  | zero =>
    intro g s hf _
    exact absurd hf (by omega)
  | succ f ih =>
    intro g s hf hg
    cases g with
    | zero => exact absurd hg (by omega)
    | succ g =>
      simp only [loopW]
      by_cases hgu : guard s
      · rw [if_pos hgu, if_pos hgu]
        have hd := hdec s hgu
        exact ih g (body s) (by omega) (by omega)
      · rw [if_neg hgu, if_neg hgu]

/-- C1 (amended): the two series summations (`lnGammaIncomplete`,
`norm.dist`'s error-function series), the continued fraction
(`lnBetaIncomplete`) and the continuous inversion search (`norm.inv`) each
run at most a fixed maximum number of iterations — their iteration counters
are bounded by 1000, 1000, 50 and 1000 respectively, so the loop result is
unchanged by any extra fuel beyond that cap; the routine then returns the
estimate built from the final state. -/
theorem c1_amended_iteration_caps :
    (∀ (a x : ℝ) (s : SeriesState) (m : ℕ),
        gammaIncLoop a x (1001 + m) s = gammaIncLoop a x 1001 s) ∧
      (∀ (t : ℝ) (s : SeriesState) (m : ℕ),
        erfSeriesLoop t (1001 + m) s = erfSeriesLoop t 1001 s) ∧
      (∀ (x a b : ℝ) (s : BetaState) (m : ℕ),
        betaCFLoop x a b (51 + m) s = betaCFLoop x a b 51 s) ∧
      ∀ (p : ℝ) (s : NInvState) (m : ℕ),
        normInvLoop p (1001 + m) s = normInvLoop p 1001 s := by
  refine ⟨?_, ?_, ?_, ?_⟩
  · intro a x s m
    apply loopW_stable gammaIncGuard (gammaIncBody a x) (fun u => 1000 - u.n)
    · intro u hu
      have h2 := hu.2
      simp only [gammaIncBody]
      omega
    · omega
    · omega
  · intro t s m
    apply loopW_stable erfGuard (erfBody t) (fun u => 1000 - u.n)
    · intro u hu
      have h2 := hu.2
      simp only [erfBody]
      omega
    · omega
    · omega
  · intro x a b s m
    apply loopW_stable betaGuard (betaBody x a b) (fun u => 50 - u.n)
    · intro u hu
      have h2 := hu.2
      simp only [betaBody]
      omega
    · omega
    · omega
  · intro p s m
    apply loopW_stable normInvGuard (normInvBody p) (fun u => 1000 - u.iter)
    · intro u hu
      have h2 := hu.2
      simp only [normInvBody]
      omega
    · omega
    · omega

/-- C6: evaluating the cumulative normal distribution at its own mean gives
exactly one half.  At `x = mean` the error-function argument is 0, the series
stays at 0, and the result branch computes `(1 + 0)/2`.  The hypothesis
`0 < stdev` matches the data model (`stdev = 0` is degenerate: in JavaScript
`0/0 = NaN` and the source returns `NaN` there, which `ℝ` cannot express). -/
theorem c6_normDist_at_mean (mean stdev : ℝ) (_hs : 0 < stdev) :
    normDist mean mean stdev true = 1 / 2 := by
  have hb : erfBody 0 ⟨0, 0, 0, 1⟩ = ⟨0, 0, 0, 2⟩ := by
    simp [erfBody]
  have hng : ¬ erfGuard (⟨0, 0, 0, 2⟩ : SeriesState) := by
    norm_num [erfGuard]
  have hloop : erfSeriesLoop 0 1001 (erfBody 0 ⟨0, 0, 0, 1⟩) = ⟨0, 0, 0, 2⟩ := by
    rw [hb, erfSeriesLoop, loopW, if_neg hng]
  simp only [normDist, sub_self, zero_div, if_pos]
  rw [hloop]
  norm_num

/-- Witness for C6 at `mean = 0`, `stdev = 1`. -/
theorem c6_normDist_at_mean_witness :
    (0 : ℝ) < 1 ∧ normDist 0 0 1 true = 1 / 2 :=
  ⟨by norm_num, c6_normDist_at_mean 0 1 (by norm_num)⟩

/-- C8 counterexample: `lnGamma(0)` violates the claimed precondition
`z > 0`, yet the source's guard is `z < 0`, so the call does *not* raise — it
returns the computed value (in JavaScript, `Infinity`, because
`Math.log(0) = -Infinity`). -/
theorem c8_counterexample_lnGamma_zero_accepted :
    lnGamma 0 = .ok (lnGammaCalc 0) := by
  rw [lnGamma, if_neg (lt_irrefl 0)]

/-- C8 (amended): `lnGamma` raises exactly when `z < 0` (or `z` is
non-numeric, unrepresentable here): every `z ≥ 0` — including `z = 0` —
returns a value without raising, and every `z < 0` raises. -/
theorem c8_amended_lnGamma_guard (z : ℝ) :
    (0 ≤ z → lnGamma z = .ok (lnGammaCalc z)) ∧
      (z < 0 → lnGamma z = .error lnGammaMsgNeg) := by
  constructor
  · intro h
    rw [lnGamma, if_neg (not_lt.mpr h)]
  · intro h
    rw [lnGamma, if_pos h]

/-- Witness for the amended C8 at `z = 1` and `z = -1`. -/
theorem c8_amended_lnGamma_guard_witness :
    lnGamma 1 = .ok (lnGammaCalc 1) ∧ lnGamma (-1) = .error lnGammaMsgNeg :=
  ⟨(c8_amended_lnGamma_guard 1).1 (by norm_num), (c8_amended_lnGamma_guard (-1)).2 (by norm_num)⟩

/-- The downward cumulative Poisson loop sums exactly the masses at
`k, k-1, …, 0`. -/
theorem poisCumGo_eq_sum (mu : ℝ) :
    ∀ k : ℕ, poisCumGo mu (k + 1) ((k : ℝ)) =
      ∑ j ∈ Finset.range (k + 1), poissonDistCalc ((j : ℝ)) mu := by
  intro k
  induction k with
  | zero => simp [poisCumGo]
  | succ k ih =>
    rw [poisCumGo]
    have hc : ((k + 1 : ℕ) : ℝ) - 1 = ((k : ℕ) : ℝ) := by
      push_cast
      ring
    rw [hc, ih, Finset.sum_range_succ (fun j => poissonDistCalc ((j : ℝ)) mu) (k + 1)]
    ring

/-- C5: for a valid number of successes `k` and mean rate `mu`, the
cumulative `poisson.dist` is the sum of the Poisson masses for `j = k` down
to `0`, except that a total of exactly `0.9999999999999999` is coerced to
`1`. -/
theorem c5_poissonDist_cumulative_sum (k : ℕ) (mu : ℝ) (hmu : 0 ≤ mu) :
    poissonDist ((k : ℝ)) mu true =
      .ok (if (∑ j ∈ Finset.range (k + 1), poissonDistCalc ((j : ℝ)) mu) = 0.9999999999999999
        then 1 else ∑ j ∈ Finset.range (k + 1), poissonDistCalc ((j : ℝ)) mu) := by
  have hrem : ¬ (jsRemOne ((k : ℝ)) > 0) := by
    have hk0 : (0 : ℝ) ≤ (k : ℝ) := Nat.cast_nonneg k
    simp [jsRemOne, hk0, Int.floor_natCast]
  have hkneg : ¬ ((k : ℝ) < 0) := not_lt.mpr (Nat.cast_nonneg k)
  have hmuneg : ¬ (mu < 0) := not_lt.mpr hmu
  have htot : poissonCumTotal ((k : ℝ)) mu =
      ∑ j ∈ Finset.range (k + 1), poissonDistCalc ((j : ℝ)) mu := by
    rw [poissonCumTotal, Int.floor_natCast]
    have hn : ((k : ℤ) + 1).toNat = k + 1 := by omega
    rw [hn]
    exact poisCumGo_eq_sum mu k
  simp only [poissonDist, hrem, hkneg, hmuneg, if_false, List.append_nil, ne_eq,
    not_true_eq_false, htot]
  norm_num

/-- Witness for C5 at `k = 0`, `mu = 1`. -/
theorem c5_poissonDist_cumulative_sum_witness :
    poissonDist ((0 : ℕ) : ℝ) 1 true =
      .ok (if (∑ j ∈ Finset.range (0 + 1), poissonDistCalc ((j : ℝ)) 1) = 0.9999999999999999
        then 1 else ∑ j ∈ Finset.range (0 + 1), poissonDistCalc ((j : ℝ)) 1) :=
  c5_poissonDist_cumulative_sum 0 1 (by norm_num)

/-- C10: for every valid mean rate and every target cumulative probability
`p ≥ 0.9999999999999999`, `poisson.inv` returns `Infinity`
(`PoisInvResult.infinite`, i.e. the value `none`) through the early-return
branch that precedes the search loop, so no search iteration is performed
(every loop outcome is wrapped in `PoisInvResult.finite`). -/
theorem c10_poissonInv_infinity (fuel : ℕ) (cumulativeProb avgSuccesses : ℝ)
    (h0 : 0 ≤ cumulativeProb) (h1 : cumulativeProb ≤ 1) (hmu : 0 ≤ avgSuccesses)
    (hc : cumulativeProb ≥ 0.9999999999999999) :
    poissonInvRun fuel cumulativeProb avgSuccesses = .ok (some PoisInvResult.infinite) ∧
      poissonInv fuel cumulativeProb avgSuccesses = .ok (some none) := by
  have herr1 : ¬ (cumulativeProb < 0 ∨ cumulativeProb > 1) := by
    push_neg
    exact ⟨h0, h1⟩
  have herr2 : ¬ (avgSuccesses < 0) := not_lt.mpr hmu
  have hrun : poissonInvRun fuel cumulativeProb avgSuccesses = .ok (some PoisInvResult.infinite) := by
    simp only [poissonInvRun, herr1, herr2, if_false, List.append_nil, ne_eq,
      not_true_eq_false, hc, if_true]
  refine ⟨hrun, ?_⟩
  rw [poissonInv, hrun]
  rfl

/-- Witness for C10 at `p = 1`, `mu = 1`, fuel 0. -/
theorem c10_poissonInv_infinity_witness :
    poissonInvRun 0 1 1 = .ok (some PoisInvResult.infinite) ∧
      poissonInv 0 1 1 = .ok (some none) :=
  c10_poissonInv_infinity 0 1 1 (by norm_num) (by norm_num) (by norm_num) (by norm_num)

end SavvyStats
